import Mathlib

set_option autoImplicit false

/-!
# Verification of the FinSightAI hybrid-retrieval core

Shallow embedding of `src/retrieval/hybrid_search.py`,
`src/retrieval/bm25_retriever.py` and `src/retrieval/milvus_client.py`.

Modelling conventions:
* Python floats are modelled as `ℚ`;
* Python dicts keyed by strings are modelled as insertion-ordered
  association lists (`List (String × _)`), which is exactly the observable
  behaviour of CPython dicts (insertion order preserved, update-in-place
  keeps the original position);
* Python's `sorted(..., reverse=True)` (a stable sort) is modelled by a
  stable descending insertion sort `sortDesc`;
* external collaborators (the `jieba` tokenizer, the per-term BM25 scoring
  of `rank_bm25.BM25Okapi`, the embedding provider, the Milvus backend) are
  parameters of the definitions; the repository's own control flow around
  them is embedded faithfully.
-/

namespace FinSight

/-- A retrieval result document: a Python dict.  Keys that are present only
in some of the dict shapes produced by the code (`source` for dense hits,
`metadata`/`rank` for BM25 hits, `rrf_score` added by fusion, `chunk_id`
carried by ingestion chunks) are `Option`s; `none` models a missing key. -/
structure Doc where
  text : String
  score : ℚ
  source : Option String := none
  metadata : Option (List (String × String)) := none
  rank : Option Nat := none
  rrf_score : Option ℚ := none
  chunk_id : Option Int := none
deriving DecidableEq, Repr, Inhabited

/-- Lookup in an insertion-ordered association list (Python `d.get(t)` /
`t in d`). -/
def alookup {α : Type} (t : String) : List (String × α) → Option α
  | [] => none
  | (s, v) :: rest => if s = t then some v else alookup t rest

/-- Python `d[t] = v`: update in place if the key exists (keeping its
position), otherwise append at the end. -/
def setVal {α : Type} (m : List (String × α)) (t : String) (v : α) :
    List (String × α) :=
  match m with
  | [] => [(t, v)]
  | (s, w) :: rest => if s = t then (s, v) :: rest else (s, w) :: setVal rest t v

/-- Python `m[t] = m.get(t, 0) + c`. -/
def bumpAdd (m : List (String × ℚ)) (t : String) (c : ℚ) : List (String × ℚ) :=
  setVal m t ((alookup t m).getD 0 + c)

/-- Python `if t not in m: m[t] = d`. -/
def putIfAbsent (m : List (String × Doc)) (t : String) (d : Doc) :
    List (String × Doc) :=
  match alookup t m with
  | some _ => m
  | none => m ++ [(t, d)]

/-- Stable descending insertion: `x` is placed before the first element
whose key is not strictly greater than `key x` (so after all earlier
elements of equal key once used right-to-left via `foldr`). -/
def insDesc {α : Type} (key : α → ℚ) (x : α) : List α → List α
  | [] => [x]
  | y :: ys => if key x < key y then y :: insDesc key x ys else x :: y :: ys

/-- Stable descending sort by `key`: the model of CPython
`sorted(l, key=key, reverse=True)` (both are the unique stable descending
reordering). -/
def sortDesc {α : Type} (key : α → ℚ) (l : List α) : List α :=
  l.foldr (insDesc key) []

namespace HybridSearcher

/-- First loop of `HybridSearcher.rrf_fusion`
(`for rank, doc in enumerate(vector_results, start=1)`): accumulate
`rrf_scores[text] += 1/(k+rank)` and record the first doc per text. -/
def vecLoop (k : ℚ) :
    ℕ → List (String × ℚ) → List (String × Doc) → List Doc →
    List (String × ℚ) × List (String × Doc)
  | _, m, td, [] => (m, td)
  | r, m, td, d :: ds =>
      vecLoop k (r + 1) (bumpAdd m d.text (1 / (k + (r : ℚ))))
        (putIfAbsent td d.text d) ds

/-- Second loop of `HybridSearcher.rrf_fusion`
(`for doc in bm25_results`): rank is read from the doc
(`doc.get('rank', 1)`). -/
def bm25Loop (k : ℚ) :
    List (String × ℚ) → List (String × Doc) → List Doc →
    List (String × ℚ) × List (String × Doc)
  | m, td, [] => (m, td)
  | m, td, d :: ds =>
      bm25Loop k (bumpAdd m d.text (1 / (k + ((d.rank).getD 1 : ℚ))))
        (putIfAbsent td d.text d) ds

/-- `HybridSearcher.rrf_fusion(vector_results, bm25_results, k)`:
accumulate reciprocal-rank contributions keyed by the document **text**,
sort the (text, score) pairs by score descending (Python's stable sort),
and emit for each text a copy of the first doc recorded for it with the
key `rrf_score` added. -/
def rrf_fusion (vector_results bm25_results : List Doc) (k : ℚ) : List Doc :=
  let st1 := vecLoop k 1 [] [] vector_results
  let st2 := bm25Loop k st1.1 st1.2 bm25_results
  (sortDesc (fun p => p.2) st2.1).map
    (fun p => { (alookup p.1 st2.2).getD default with rrf_score := some p.2 })

/-- `HybridSearcher.search(query, top_k, ..., rrf_k)` with the two
sub-searchers (`self.vector_store.search`, `self.bm25_retriever.search`)
as collaborator parameters: each is over-fetched with `top_k * 2`, the two
lists are fused, and the fused list is truncated to `top_k`. -/
def search (vsearch bsearch : String → ℕ → List Doc) (query : String)
    (top_k : ℕ) (rrf_k : ℚ) : List Doc :=
  let vector_results := vsearch query (top_k * 2)
  let bm25_results := bsearch query (top_k * 2)
  (rrf_fusion vector_results bm25_results rrf_k).take top_k

/-- `HybridSearcher.search` when the vector sub-search may raise
(embedding-provider failure inside `VectorStore.search` →
`MilvusClient.search` → `embed_texts`): the Python code has no
`try`/`except`, so an exception from the vector search propagates before
the BM25 search even runs. -/
def searchE (vsearch : String → ℕ → Except String (List Doc))
    (bsearch : String → ℕ → List Doc) (query : String)
    (top_k : ℕ) (rrf_k : ℚ) : Except String (List Doc) :=
  match vsearch query (top_k * 2) with
  | .error e => .error e
  | .ok vector_results =>
      .ok ((rrf_fusion vector_results (bsearch query (top_k * 2)) rrf_k).take
        top_k)

end HybridSearcher

/-- An ingestion chunk: a Python dict `{'text': ..., 'metadata': ...,
'chunk_id': ...}`.  `text` is an `Option` because the dict may lack the
key (Python then raises `KeyError` on `doc['text']`). -/
structure IngestDoc where
  text : Option String
  metadata : List (String × String) := []
  chunk_id : Int := 0
deriving DecidableEq, Repr

/-- State of a `BM25Retriever` instance.  `bm25` models the
`rank_bm25.BM25Okapi` object: `none` before the first successful build, and
otherwise the snapshot of the tokenized corpus it was built from. -/
structure BM25State where
  corpus : List String := []
  tokenizedCorpus : List (List String) := []
  metadataList : List (List (String × String)) := []
  bm25 : Option (List (List String)) := none
deriving DecidableEq, Repr

namespace BM25Retriever

/-- The `for doc in documents` loop of `BM25Retriever.add_documents`:
appends text, metadata (`doc.get('metadata', {})`) and tokens per doc; a
doc without a `text` key stops the loop with a `KeyError`, leaving the
appends made so far in place. -/
def addLoop (tokenize : String → List String) :
    BM25State → List IngestDoc → BM25State × Option String
  | st, [] => (st, none)
  | st, d :: ds =>
      match d.text with
      | none => (st, some "KeyError")
      | some t =>
          addLoop tokenize
            { st with
              corpus := st.corpus ++ [t]
              metadataList := st.metadataList ++ [d.metadata]
              tokenizedCorpus := st.tokenizedCorpus ++ [tokenize t] } ds

/-- `BM25Retriever.add_documents(documents)`: early return on an empty
batch; otherwise run the append loop and, if no exception occurred,
rebuild `self.bm25 = BM25Okapi(self.tokenized_corpus)` (a snapshot of the
whole tokenized corpus).  The second component is the exception, if any
(the rebuild line is not reached when the loop raises). -/
def add_documents (tokenize : String → List String) (st : BM25State)
    (documents : List IngestDoc) : BM25State × Option String :=
  if documents.isEmpty then (st, none)
  else
    match addLoop tokenize st documents with
    | (st', some e) => (st', some e)
    | (st', none) => ({ st' with bm25 := some st'.tokenizedCorpus }, none)

/-- Python slice `l[:n]`: for `n ≥ 0` the first `n` elements, for `n < 0`
all but the last `|n|` elements (clamped at zero). -/
def pySlice {α : Type} (l : List α) (n : ℤ) : List α :=
  if 0 ≤ n then l.take n.toNat else l.take ((l.length : ℤ) + n).toNat

/-- `BM25Retriever.search(query, top_k)`.  The external
`BM25Okapi.get_scores` is `score = 0; for q in query: score += ...`, i.e.
a sum over query tokens of a per-(term, doc) contribution depending on the
indexed corpus: that contribution (`termScore`) and the `jieba` tokenizer
are collaborator parameters.  `top_indices` is the Python
`sorted(range(len(scores)), key=lambda i: scores[i], reverse=True)[:top_k]`
and results are emitted with 1-based ranks. -/
def search (termScore : List (List String) → String → List String → ℚ)
    (tokenize : String → List String) (st : BM25State) (query : String)
    (top_k : ℤ) : List Doc :=
  match st.bm25 with
  | none => []
  | some snap =>
      let query_tokens := tokenize query
      let scores := snap.map
        (fun dtoks => (query_tokens.map (fun q => termScore snap q dtoks)).sum)
      let top_indices :=
        pySlice (sortDesc (fun i => scores.getD i 0) (List.range scores.length))
          top_k
      top_indices.enum.map (fun p =>
        { text := st.corpus.getD p.2 ""
          score := scores.getD p.2 0
          metadata := some (st.metadataList.getD p.2 [])
          rank := some (p.1 + 1) })

end BM25Retriever

/-- A chunk as passed to `MilvusClient.insert`
(`{'text': str, 'metadata': dict, 'chunk_id': int}`). -/
structure Chunk where
  text : String
  metadata : List (String × String) := []
  chunk_id : Int := 0
deriving DecidableEq, Repr

/-- An entity row as built by `MilvusClient.insert`: only `text`, a single
`source` string pulled out of the metadata, and `chunk_id` are stored next
to the vector — the rest of the metadata mapping is not. -/
structure Entity where
  id : Int
  vector : List ℚ
  text : String
  source : String
  chunk_id : Int
deriving DecidableEq, Repr

namespace MilvusClient

/-- The batches produced by `for i in range(0, len(texts), batch_size)`
with `batch = texts[i:i+batch_size]` (fuelled recursion; for
`batch_size ≥ 1` the fuel `l.length` is never exhausted). -/
def pyChunksAux {α : Type} : ℕ → ℕ → List α → List (List α)
  | 0, _, _ => []
  | _, _, [] => []
  | fuel + 1, bs, x :: xs => (x :: xs).take bs :: pyChunksAux fuel bs ((x :: xs).drop bs)

/-- The list of slices `texts[i:i+batch_size]` for `i = 0, bs, 2*bs, ...`. -/
def pyChunks {α : Type} (bs : ℕ) (l : List α) : List (List α) :=
  pyChunksAux l.length bs l

/-- `MilvusClient.embed_texts(texts, batch_size)`: split `texts` into
slices of at most `batch_size`, call the provider
(`self.embedding_client.embeddings.create`) once per slice, and
concatenate the returned embeddings in order. -/
def embed_texts (provider : List String → List (List ℚ)) (texts : List String)
    (batch_size : ℕ) : List (List ℚ) :=
  (pyChunks batch_size texts).foldl (fun acc b => acc ++ provider b) []

/-- `MilvusClient.insert(chunks)`: embed all texts, then build one entity
per chunk with a synthetic integer id `base_id + idx` (timestamp-based in
the code), the chunk text, `source := chunk['metadata'].get('source', '')`
and the chunk's `chunk_id`.  No id-collision or validity check of any kind
is performed. -/
def insert (provider : List String → List (List ℚ)) (base_id : Int)
    (chunks : List Chunk) : List Entity :=
  if chunks.isEmpty then []
  else
    let texts := chunks.map (·.text)
    let vectors := embed_texts provider texts 64
    (chunks.zip vectors).enum.map (fun p =>
      { id := base_id + p.1
        vector := p.2.2
        text := p.2.1.text
        source := (alookup "source" p.2.1.metadata).getD ""
        chunk_id := p.2.1.chunk_id })

/-- `MilvusClient.search(query, top_k)`: embed the query, ask the backend
(`self.client.search`, a collaborator returning scored entities), and
format each hit as `{'text': ..., 'source': ..., 'score': distance}` —
only the `text` and `source` output fields are kept; no `metadata` key is
ever produced. -/
def search (embed : String → List ℚ) (retrieve : List ℚ → ℕ → List (Entity × ℚ))
    (query : String) (top_k : ℕ) : List Doc :=
  let query_vec := embed query
  (retrieve query_vec top_k).map (fun h =>
    { text := h.1.text, source := some h.1.source, score := h.2 })

end MilvusClient

/-- 1-based positions at which a text occurs in a result list (the spec's
`rank` of a chunk within one index's result list). -/
def ranksOf (l : List Doc) (t : String) : List ℕ :=
  (l.enum.filter (fun p => p.2.text = t)).map (fun p => p.1 + 1)

/-- The spec's "combined minimum rank" of a text across the two
sub-search result lists (used to state the tie-breaking clause). -/
def minCombinedRank (v b : List Doc) (t : String) : ℕ :=
  ((ranksOf v t ++ ranksOf b t).min?).getD 0

/-! ## Association-list lemmas -/

theorem alookup_append {α : Type} (t : String) (m₁ m₂ : List (String × α)) :
    alookup t (m₁ ++ m₂) =
      match alookup t m₁ with
      | some v => some v
      | none => alookup t m₂ := by
  induction m₁ with
  | nil => simp [alookup]
  | cons p rest ih =>
      obtain ⟨s, v⟩ := p
      by_cases h : s = t <;> simp [alookup, h, ih]

theorem alookup_setVal_self {α : Type} (m : List (String × α)) (t : String)
    (v : α) : alookup t (setVal m t v) = some v := by
  induction m with
  | nil => simp [setVal, alookup]
  | cons p rest ih =>
      obtain ⟨s, w⟩ := p
      by_cases h : s = t <;> simp [setVal, alookup, h, ih]

theorem alookup_setVal_ne {α : Type} (m : List (String × α)) (s t : String)
    (v : α) (h : s ≠ t) : alookup s (setVal m t v) = alookup s m := by
  induction m with
  | nil => simp [setVal, alookup, h.symm]
  | cons p rest ih =>
      obtain ⟨u, w⟩ := p
      by_cases hu : u = t
      · subst hu
        simp [setVal, alookup, h.symm]
      · simp [setVal, alookup, hu, ih]

theorem keys_setVal_of_mem {α : Type} (m : List (String × α)) (t : String)
    (v : α) (h : t ∈ m.map Prod.fst) :
    (setVal m t v).map Prod.fst = m.map Prod.fst := by
  induction m with
  | nil => simp at h
  | cons p rest ih =>
      obtain ⟨s, w⟩ := p
      by_cases hs : s = t
      · simp [setVal, hs]
      · simp only [List.map_cons, List.mem_cons] at h
        rcases h with h | h
        · exact absurd h.symm hs
        · simp [setVal, hs, ih h]

theorem keys_setVal_of_not_mem {α : Type} (m : List (String × α)) (t : String)
    (v : α) (h : t ∉ m.map Prod.fst) :
    (setVal m t v).map Prod.fst = m.map Prod.fst ++ [t] := by
  induction m with
  | nil => simp [setVal]
  | cons p rest ih =>
      obtain ⟨s, w⟩ := p
      simp only [List.map_cons, List.mem_cons] at h
      push_neg at h
      simp [setVal, h.1.symm, ih h.2]

theorem mem_keys_setVal {α : Type} (m : List (String × α)) (a t : String)
    (v : α) :
    a ∈ (setVal m t v).map Prod.fst ↔ a ∈ m.map Prod.fst ∨ a = t := by
  by_cases h : t ∈ m.map Prod.fst
  · rw [keys_setVal_of_mem m t v h]
    constructor
    · exact fun hh => Or.inl hh
    · rintro (hh | rfl) <;> [exact hh; exact h]
  · rw [keys_setVal_of_not_mem m t v h]
    simp

theorem nodup_keys_setVal {α : Type} (m : List (String × α)) (t : String)
    (v : α) (h : (m.map Prod.fst).Nodup) :
    ((setVal m t v).map Prod.fst).Nodup := by
  by_cases hm : t ∈ m.map Prod.fst
  · rwa [keys_setVal_of_mem m t v hm]
  · rw [keys_setVal_of_not_mem m t v hm]
    simp [List.nodup_append, h, hm]

theorem alookup_eq_some_of_mem_of_nodup {α : Type} (m : List (String × α))
    (t : String) (v : α) (hn : (m.map Prod.fst).Nodup) (hm : (t, v) ∈ m) :
    alookup t m = some v := by
  induction m with
  | nil => simp at hm
  | cons p rest ih =>
      obtain ⟨s, w⟩ := p
      simp only [List.map_cons, List.nodup_cons] at hn
      rcases List.mem_cons.1 hm with h | h
      · injection h with h1 h2
        subst h1
        subst h2
        simp [alookup]
      · have hst : s ≠ t := by
          rintro rfl
          exact hn.1 (List.mem_map.2 ⟨(s, v), h, rfl⟩)
        simp [alookup, hst, ih hn.2 h]

theorem mem_of_alookup_eq_some {α : Type} (m : List (String × α))
    (t : String) (v : α) (h : alookup t m = some v) : (t, v) ∈ m := by
  induction m with
  | nil => simp [alookup] at h
  | cons p rest ih =>
      obtain ⟨s, w⟩ := p
      by_cases hs : s = t
      · subst hs
        simp [alookup] at h
        simp [h]
      · simp [alookup, hs] at h
        exact List.mem_cons_of_mem _ (ih h)

theorem alookup_putIfAbsent_self (m : List (String × Doc)) (t : String)
    (d : Doc) :
    alookup t (putIfAbsent m t d) = some ((alookup t m).getD d) := by
  unfold putIfAbsent
  cases h : alookup t m with
  | some x => simp [h]
  | none => simp [alookup_append, h, alookup]

theorem alookup_putIfAbsent_ne (m : List (String × Doc)) (s t : String)
    (d : Doc) (h : s ≠ t) :
    alookup s (putIfAbsent m t d) = alookup s m := by
  unfold putIfAbsent
  cases ht : alookup t m with
  | some x => rfl
  | none =>
      rw [alookup_append]
      cases hs : alookup s m with
      | some x => rfl
      | none => simp [alookup, h.symm]

/-! ## Stable descending sort lemmas -/

theorem insDesc_perm {α : Type} (key : α → ℚ) (x : α) (l : List α) :
    List.Perm (insDesc key x l) (x :: l) := by
  induction l with
  | nil => rfl
  | cons y ys ih =>
      by_cases h : key x < key y
      · simp only [insDesc, if_pos h]
        exact (ih.cons y).trans (List.Perm.swap x y ys)
      · simp [insDesc, if_neg h]

theorem sortDesc_perm {α : Type} (key : α → ℚ) (l : List α) :
    List.Perm (sortDesc key l) l := by
  induction l with
  | nil => rfl
  | cons x xs ih =>
      exact (insDesc_perm key x (sortDesc key xs)).trans (ih.cons x)

theorem mem_insDesc {α : Type} (key : α → ℚ) (x a : α) (l : List α) :
    a ∈ insDesc key x l ↔ a = x ∨ a ∈ l := by
  rw [(insDesc_perm key x l).mem_iff]
  simp

theorem insDesc_pairwise {α : Type} (key : α → ℚ) (x : α) (l : List α)
    (h : l.Pairwise (fun a b => key b ≤ key a)) :
    (insDesc key x l).Pairwise (fun a b => key b ≤ key a) := by
  induction l with
  | nil => simp [insDesc]
  | cons y ys ih =>
      rcases List.pairwise_cons.1 h with ⟨hy, hys⟩
      by_cases hk : key x < key y
      · simp only [insDesc, if_pos hk]
        refine List.pairwise_cons.2 ⟨?_, ih hys⟩
        intro z hz
        rcases (mem_insDesc key x z ys).1 hz with rfl | hz
        · exact le_of_lt hk
        · exact hy z hz
      · simp only [insDesc, if_neg hk]
        refine List.pairwise_cons.2 ⟨?_, h⟩
        intro z hz
        rcases List.mem_cons.1 hz with rfl | hz
        · exact not_lt.1 hk
        · exact le_trans (hy z hz) (not_lt.1 hk)

theorem sortDesc_pairwise {α : Type} (key : α → ℚ) (l : List α) :
    (sortDesc key l).Pairwise (fun a b => key b ≤ key a) := by
  induction l with
  | nil => simp [sortDesc]
  | cons x xs ih => exact insDesc_pairwise key x (sortDesc key xs) ih

theorem insDesc_of_const {α : Type} (key : α → ℚ) (x : α) (l : List α)
    (c : ℚ) (hx : key x = c) (h : ∀ a ∈ l, key a = c) :
    insDesc key x l = x :: l := by
  cases l with
  | nil => rfl
  | cons y ys =>
      have : ¬ key x < key y := by
        rw [hx, h y (List.mem_cons_self y ys)]
        exact lt_irrefl c
      simp [insDesc, this]

theorem sortDesc_of_const {α : Type} (key : α → ℚ) (l : List α) (c : ℚ)
    (h : ∀ a ∈ l, key a = c) : sortDesc key l = l := by
  induction l with
  | nil => rfl
  | cons x xs ih =>
      have hxs : ∀ a ∈ xs, key a = c := fun a ha => h a (List.mem_cons_of_mem x ha)
      show insDesc key x (sortDesc key xs) = x :: xs
      rw [ih hxs]
      exact insDesc_of_const key x xs c (h x (List.mem_cons_self x xs)) hxs

theorem find?_append {α : Type} (p : α → Bool) (l₁ l₂ : List α) :
    (l₁ ++ l₂).find? p = ((l₁.find? p).or (l₂.find? p)) := by
  induction l₁ with
  | nil => simp
  | cons x xs ih =>
      cases hx : p x
      · simp [List.find?, hx, ih]
      · simp [List.find?, hx]

/-! ## Fusion-loop characterization lemmas -/

namespace HybridSearcher

theorem vecLoop_snd_alookup (k : ℚ) (t : String) (ds : List Doc) :
    ∀ (r : ℕ) (m : List (String × ℚ)) (td : List (String × Doc)),
    alookup t (vecLoop k r m td ds).2 =
      ((alookup t td).or (ds.find? (fun d => d.text = t))) := by
  induction ds with
  | nil =>
      intro r m td
      simp [vecLoop]
  | cons d ds ih =>
      intro r m td
      show alookup t (vecLoop k (r + 1) _ (putIfAbsent td d.text d) ds).2 = _
      rw [ih]
      by_cases h : d.text = t
      · subst h
        rw [alookup_putIfAbsent_self, List.find?_cons_of_pos _ (by simp)]
        cases htd : alookup d.text td <;> simp
      · rw [alookup_putIfAbsent_ne _ _ _ _ (fun hh => h hh.symm),
          List.find?_cons_of_neg _ (by simp [h])]

theorem bm25Loop_snd_alookup (k : ℚ) (t : String) (ds : List Doc) :
    ∀ (m : List (String × ℚ)) (td : List (String × Doc)),
    alookup t (bm25Loop k m td ds).2 =
      ((alookup t td).or (ds.find? (fun d => d.text = t))) := by
  induction ds with
  | nil =>
      intro m td
      simp [bm25Loop]
  | cons d ds ih =>
      intro m td
      show alookup t (bm25Loop k _ (putIfAbsent td d.text d) ds).2 = _
      rw [ih]
      by_cases h : d.text = t
      · subst h
        rw [alookup_putIfAbsent_self, List.find?_cons_of_pos _ (by simp)]
        cases htd : alookup d.text td <;> simp
      · rw [alookup_putIfAbsent_ne _ _ _ _ (fun hh => h hh.symm),
          List.find?_cons_of_neg _ (by simp [h])]

theorem vecLoop_fst_alookup_not_mem (k : ℚ) (t : String) (ds : List Doc) :
    ∀ (r : ℕ) (m : List (String × ℚ)) (td : List (String × Doc)),
    t ∉ ds.map Doc.text →
    alookup t (vecLoop k r m td ds).1 = alookup t m := by
  induction ds with
  | nil =>
      intro r m td _
      simp [vecLoop]
  | cons d ds ih =>
      intro r m td h
      simp only [List.map_cons, List.mem_cons] at h
      push_neg at h
      show alookup t (vecLoop k (r + 1) (bumpAdd m d.text _) _ ds).1 = _
      rw [ih _ _ _ h.2, bumpAdd, alookup_setVal_ne _ _ _ _ h.1]

theorem bm25Loop_fst_alookup_not_mem (k : ℚ) (t : String) (ds : List Doc) :
    ∀ (m : List (String × ℚ)) (td : List (String × Doc)),
    t ∉ ds.map Doc.text →
    alookup t (bm25Loop k m td ds).1 = alookup t m := by
  induction ds with
  | nil =>
      intro m td _
      simp [bm25Loop]
  | cons d ds ih =>
      intro m td h
      simp only [List.map_cons, List.mem_cons] at h
      push_neg at h
      show alookup t (bm25Loop k (bumpAdd m d.text _) _ ds).1 = _
      rw [ih _ _ h.2, bumpAdd, alookup_setVal_ne _ _ _ _ h.1]

theorem vecLoop_fst_alookup_single (k : ℚ) (t : String) (as : List Doc) :
    ∀ (d : Doc) (bs : List Doc) (r : ℕ) (m : List (String × ℚ))
      (td : List (String × Doc)),
    d.text = t → t ∉ as.map Doc.text → t ∉ bs.map Doc.text →
    alookup t (vecLoop k r m td (as ++ d :: bs)).1 =
      some ((alookup t m).getD 0 + 1 / (k + ((r + as.length : ℕ) : ℚ))) := by
  induction as with
  | nil =>
      intro d bs r m td hd _ hbs
      show alookup t (vecLoop k (r + 1) (bumpAdd m d.text _) _ bs).1 = _
      rw [vecLoop_fst_alookup_not_mem k t bs _ _ _ hbs, hd, bumpAdd,
        alookup_setVal_self]
      simp
  | cons a as ih =>
      intro d bs r m td hd has hbs
      simp only [List.map_cons, List.mem_cons] at has
      push_neg at has
      show alookup t (vecLoop k (r + 1) (bumpAdd m a.text _) _ (as ++ d :: bs)).1 = _
      rw [ih d bs (r + 1) _ _ hd has.2 hbs, bumpAdd,
        alookup_setVal_ne _ _ _ _ has.1]
      have harith : r + 1 + as.length = r + (as.length + 1) := by omega
      rw [harith]
      simp

theorem vecLoop_fst_mem_keys (k : ℚ) (a : String) (ds : List Doc) :
    ∀ (r : ℕ) (m : List (String × ℚ)) (td : List (String × Doc)),
    (a ∈ (vecLoop k r m td ds).1.map Prod.fst ↔
      a ∈ m.map Prod.fst ∨ a ∈ ds.map Doc.text) := by
  induction ds with
  | nil =>
      intro r m td
      simp [vecLoop]
  | cons d ds ih =>
      intro r m td
      show a ∈ (vecLoop k (r + 1) (bumpAdd m d.text _) _ ds).1.map Prod.fst ↔ _
      rw [ih, bumpAdd, mem_keys_setVal]
      simp only [List.map_cons, List.mem_cons]
      tauto

theorem bm25Loop_fst_mem_keys (k : ℚ) (a : String) (ds : List Doc) :
    ∀ (m : List (String × ℚ)) (td : List (String × Doc)),
    (a ∈ (bm25Loop k m td ds).1.map Prod.fst ↔
      a ∈ m.map Prod.fst ∨ a ∈ ds.map Doc.text) := by
  induction ds with
  | nil =>
      intro m td
      simp [bm25Loop]
  | cons d ds ih =>
      intro m td
      show a ∈ (bm25Loop k (bumpAdd m d.text _) _ ds).1.map Prod.fst ↔ _
      rw [ih, bumpAdd, mem_keys_setVal]
      simp only [List.map_cons, List.mem_cons]
      tauto

theorem vecLoop_fst_nodup (k : ℚ) (ds : List Doc) :
    ∀ (r : ℕ) (m : List (String × ℚ)) (td : List (String × Doc)),
    (m.map Prod.fst).Nodup → ((vecLoop k r m td ds).1.map Prod.fst).Nodup := by
  induction ds with
  | nil =>
      intro r m td h
      simpa [vecLoop] using h
  | cons d ds ih =>
      intro r m td h
      exact ih _ _ _ (nodup_keys_setVal _ _ _ h)

theorem bm25Loop_fst_nodup (k : ℚ) (ds : List Doc) :
    ∀ (m : List (String × ℚ)) (td : List (String × Doc)),
    (m.map Prod.fst).Nodup → ((bm25Loop k m td ds).1.map Prod.fst).Nodup := by
  induction ds with
  | nil =>
      intro m td h
      simpa [bm25Loop] using h
  | cons d ds ih =>
      intro m td h
      exact ih _ _ (nodup_keys_setVal _ _ _ h)

/-- The two dict states (`rrf_scores`, `text_to_doc`) after both loops of
`rrf_fusion` have run. -/
def fusionMaps (vres bres : List Doc) (k : ℚ) :
    List (String × ℚ) × List (String × Doc) :=
  bm25Loop k (vecLoop k 1 [] [] vres).1 (vecLoop k 1 [] [] vres).2 bres

theorem rrf_fusion_eq_maps (vres bres : List Doc) (k : ℚ) :
    rrf_fusion vres bres k =
      (sortDesc (fun p => p.2) (fusionMaps vres bres k).1).map
        (fun p =>
          { (alookup p.1 (fusionMaps vres bres k).2).getD default with
            rrf_score := some p.2 }) := rfl

theorem fusionMaps_snd_alookup (vres bres : List Doc) (k : ℚ) (t : String) :
    alookup t (fusionMaps vres bres k).2 =
      (vres ++ bres).find? (fun d => d.text = t) := by
  rw [fusionMaps, bm25Loop_snd_alookup, vecLoop_snd_alookup, find?_append]
  simp [alookup, Option.or_assoc]

theorem fusionMaps_fst_mem_keys (vres bres : List Doc) (k : ℚ) (a : String) :
    a ∈ (fusionMaps vres bres k).1.map Prod.fst ↔
      a ∈ vres.map Doc.text ∨ a ∈ bres.map Doc.text := by
  rw [fusionMaps, bm25Loop_fst_mem_keys, vecLoop_fst_mem_keys]
  simp

theorem fusionMaps_fst_nodup (vres bres : List Doc) (k : ℚ) :
    ((fusionMaps vres bres k).1.map Prod.fst).Nodup := by
  exact bm25Loop_fst_nodup k bres _ _
    (vecLoop_fst_nodup k vres 1 [] [] (by simp))

theorem mem_rrf_fusion_iff (vres bres : List Doc) (k : ℚ) (d : Doc) :
    d ∈ rrf_fusion vres bres k ↔
      ∃ p ∈ (fusionMaps vres bres k).1,
        d = { (alookup p.1 (fusionMaps vres bres k).2).getD default with
              rrf_score := some p.2 } := by
  rw [rrf_fusion_eq_maps, List.mem_map]
  constructor
  · rintro ⟨p, hp, rfl⟩
    exact ⟨p, (sortDesc_perm _ _).mem_iff.1 hp, rfl⟩
  · rintro ⟨p, hp, rfl⟩
    exact ⟨p, (sortDesc_perm _ _).mem_iff.2 hp, rfl⟩

theorem exists_find_of_mem_texts (l : List Doc) (t : String)
    (h : t ∈ l.map Doc.text) :
    ∃ d₀, l.find? (fun d => d.text = t) = some d₀ ∧ d₀ ∈ l ∧ d₀.text = t := by
  induction l with
  | nil => simp at h
  | cons d ds ih =>
      by_cases hd : d.text = t
      · exact ⟨d, List.find?_cons_of_pos _ (by simp [hd]), List.mem_cons_self d ds, hd⟩
      · simp only [List.map_cons, List.mem_cons] at h
        rcases h with h | h
        · exact absurd h.symm hd
        · obtain ⟨d₀, h1, h2, h3⟩ := ih h
          exact ⟨d₀, by rw [List.find?_cons_of_neg _ (by simp [hd])]; exact h1,
            List.mem_cons_of_mem d h2, h3⟩

/-- For any entry `p` of the accumulated score dict, the doc emitted for it
is the first input doc (vector list first, then BM25 list) carrying that
text, with `rrf_score` set. -/
theorem fusion_doc_payload (vres bres : List Doc) (k : ℚ)
    (p : String × ℚ) (hp : p ∈ (fusionMaps vres bres k).1) :
    ∃ d₀, (vres ++ bres).find? (fun d => d.text = p.1) = some d₀ ∧
      d₀ ∈ vres ++ bres ∧ d₀.text = p.1 ∧
      ({ (alookup p.1 (fusionMaps vres bres k).2).getD default with
          rrf_score := some p.2 } : Doc) = { d₀ with rrf_score := some p.2 } := by
  have hk : p.1 ∈ (fusionMaps vres bres k).1.map Prod.fst :=
    List.mem_map.2 ⟨p, hp, rfl⟩
  have ht : p.1 ∈ (vres ++ bres).map Doc.text := by
    rw [List.map_append, List.mem_append]
    exact (fusionMaps_fst_mem_keys vres bres k p.1).1 hk
  obtain ⟨d₀, h1, h2, h3⟩ := exists_find_of_mem_texts (vres ++ bres) p.1 ht
  refine ⟨d₀, h1, h2, h3, ?_⟩
  rw [fusionMaps_snd_alookup, h1]
  rfl

theorem rrf_fusion_text_map_eq (vres bres : List Doc) (k : ℚ) :
    (rrf_fusion vres bres k).map Doc.text =
      (sortDesc (fun p => p.2) (fusionMaps vres bres k).1).map Prod.fst := by
  rw [rrf_fusion_eq_maps, List.map_map]
  refine List.map_congr_left ?_
  intro p hp
  obtain ⟨d₀, _, _, h3, h4⟩ := fusion_doc_payload vres bres k p
    ((sortDesc_perm _ _).mem_iff.1 hp)
  show ({ (alookup p.1 (fusionMaps vres bres k).2).getD default with
    rrf_score := some p.2 } : Doc).text = p.1
  rw [h4]
  exact h3

theorem rrf_fusion_texts_nodup (vres bres : List Doc) (k : ℚ) :
    ((rrf_fusion vres bres k).map Doc.text).Nodup := by
  rw [rrf_fusion_text_map_eq]
  exact (((sortDesc_perm (fun p => p.2) (fusionMaps vres bres k).1).map
    Prod.fst).nodup_iff).2 (fusionMaps_fst_nodup vres bres k)

theorem mem_rrf_fusion_texts (vres bres : List Doc) (k : ℚ) (t : String) :
    t ∈ (rrf_fusion vres bres k).map Doc.text ↔
      t ∈ vres.map Doc.text ∨ t ∈ bres.map Doc.text := by
  rw [rrf_fusion_text_map_eq,
    (((sortDesc_perm (fun p => p.2) (fusionMaps vres bres k).1)).map
      Prod.fst).mem_iff]
  exact fusionMaps_fst_mem_keys vres bres k t

theorem rrf_fusion_sorted_desc (vres bres : List Doc) (k : ℚ) :
    (rrf_fusion vres bres k).Pairwise
      (fun d e => e.rrf_score.getD 0 ≤ d.rrf_score.getD 0) := by
  rw [rrf_fusion_eq_maps, List.pairwise_map]
  exact (sortDesc_pairwise (fun p => p.2) (fusionMaps vres bres k).1).imp
    (fun h => by simpa using h)

/-- C1 (amended): `rrf_fusion` merges by the **literal text**, not by
`chunk_id`: the fused output has exactly one hit per distinct text
occurring in either input list (so distinct chunks sharing a text are
unified, contrary to the original claim). -/
theorem rrf_fusion_keyed_by_text (vres bres : List Doc) (k : ℚ) :
    ((rrf_fusion vres bres k).map Doc.text).Nodup ∧
    ∀ t, (t ∈ (rrf_fusion vres bres k).map Doc.text ↔
      t ∈ vres.map Doc.text ∨ t ∈ bres.map Doc.text) :=
  ⟨rrf_fusion_texts_nodup vres bres k, mem_rrf_fusion_texts vres bres k⟩

/-- C1 counterexample: two distinct chunks (`chunk_id` 1 and 2) with
identical text are unified by `rrf_fusion` into a single fused hit whose
score sums both contributions — the claim says this must never happen. -/
theorem rrf_fusion_unifies_equal_text :
    HybridSearcher.rrf_fusion
      [{ text := "t", score := 1, chunk_id := some 1 }]
      [{ text := "t", score := 2, rank := some 1, chunk_id := some 2 }] 60 =
      [{ text := "t", score := 1, chunk_id := some 1,
         rrf_score := some (2 / 61) }] := by
  simp [rrf_fusion, vecLoop, bm25Loop, bumpAdd, setVal, alookup, putIfAbsent,
    sortDesc, insDesc]
  norm_num

/-- C2 (amended): every fused hit is (payload-wise) a doc from one of the
two input lists with only `rrf_score` added — a chunk in neither list
never appears; and a doc whose text occurs exactly once in the vector
list, at 1-based rank `rankA`, and not at all in the BM25 list, receives
exactly `1/(k + rankA)`.  (The per-chunk reading of the original claim
fails when another chunk shares the same text; see the counterexample.) -/
theorem rrf_fusion_partial_presence (vres bres : List Doc) (k : ℚ) :
    (∀ d ∈ rrf_fusion vres bres k, ∃ d₀, (d₀ ∈ vres ∨ d₀ ∈ bres) ∧
        d = { d₀ with rrf_score := d.rrf_score }) ∧
    ∀ (t : String) (as bs : List Doc) (d₀ : Doc),
      vres = as ++ d₀ :: bs → d₀.text = t → t ∉ as.map Doc.text →
      t ∉ bs.map Doc.text → t ∉ bres.map Doc.text →
      { d₀ with rrf_score := some (1 / (k + ((as.length + 1 : ℕ) : ℚ))) } ∈
        rrf_fusion vres bres k := by
  constructor
  · intro d hd
    obtain ⟨p, hp, rfl⟩ := (mem_rrf_fusion_iff vres bres k d).1 hd
    obtain ⟨d₀, _, h2, _, h4⟩ := fusion_doc_payload vres bres k p hp
    rw [h4]
    exact ⟨d₀, List.mem_append.1 h2, rfl⟩
  · intro t as bs d₀ hv hd has hbs hbres
    have hval : alookup t (fusionMaps vres bres k).1 =
        some (1 / (k + ((as.length + 1 : ℕ) : ℚ))) := by
      rw [fusionMaps, bm25Loop_fst_alookup_not_mem k t bres _ _ hbres, hv,
        vecLoop_fst_alookup_single k t as d₀ bs 1 [] [] hd has hbs]
      have : (1 : ℕ) + as.length = as.length + 1 := by omega
      rw [this]
      simp [alookup]
    have hmem : (t, 1 / (k + ((as.length + 1 : ℕ) : ℚ))) ∈
        (fusionMaps vres bres k).1 :=
      mem_of_alookup_eq_some _ _ _ hval
    have hfind : (vres ++ bres).find? (fun d => d.text = t) = some d₀ := by
      rw [find?_append, hv, find?_append]
      have hnone : as.find? (fun d => d.text = t) = none :=
        List.find?_eq_none.2 (by
          intro x hx
          simp only [decide_eq_true_eq]
          intro hxt
          exact has (List.mem_map.2 ⟨x, hx, hxt⟩))
      rw [hnone, List.find?_cons_of_pos _ (by simp [hd])]
      rfl
    refine (mem_rrf_fusion_iff vres bres k _).2
      ⟨(t, 1 / (k + ((as.length + 1 : ℕ) : ℚ))), hmem, ?_⟩
    rw [fusionMaps_snd_alookup, hfind]
    rfl

/-- C2 counterexample: the chunk with `chunk_id` 1 is present only in the
vector list, at rank 1, so the claim promises the fused score `1/(10+1)`;
but because another chunk (`chunk_id` 2) shares its text, the code fuses
them and its hit carries `2/11 ≠ 1/11`. -/
theorem rrf_fusion_only_in_A_score_counterexample :
    HybridSearcher.rrf_fusion
      [{ text := "same", score := 1, chunk_id := some 1 }]
      [{ text := "same", score := 9, rank := some 1, chunk_id := some 2 }] 10 =
      [{ text := "same", score := 1, chunk_id := some 1,
         rrf_score := some (2 / 11) }] ∧ (2 / 11 : ℚ) ≠ 1 / 11 := by
  refine ⟨?_, by norm_num⟩
  simp [rrf_fusion, vecLoop, bm25Loop, bumpAdd, setVal, alookup, putIfAbsent,
    sortDesc, insDesc]
  norm_num

/-- C10 (confirmed): when a text occurs in both input lists, every fused
hit carrying that text is the **vector-list** doc's payload (the first
list processed wins `text_to_doc`) with only `rrf_score` added; the BM25
doc's payload is discarded. -/
theorem rrf_fusion_payload_from_vector_list (vres bres : List Doc) (k : ℚ)
    (t : String) (hv : t ∈ vres.map Doc.text) (hb : t ∈ bres.map Doc.text) :
    ∃ d₀, vres.find? (fun d => d.text = t) = some d₀ ∧
      (∃ d ∈ rrf_fusion vres bres k, d.text = t) ∧
      ∀ d ∈ rrf_fusion vres bres k, d.text = t →
        d = { d₀ with rrf_score := d.rrf_score } := by
  obtain ⟨d₀, h1, h2, h3⟩ := exists_find_of_mem_texts vres t hv
  have hfind : (vres ++ bres).find? (fun d => d.text = t) = some d₀ := by
    rw [find?_append, h1]
    rfl
  refine ⟨d₀, h1, ?_, ?_⟩
  · have hk : t ∈ (fusionMaps vres bres k).1.map Prod.fst :=
      (fusionMaps_fst_mem_keys vres bres k t).2 (Or.inl hv)
    obtain ⟨p, hp, hpt⟩ := List.mem_map.1 hk
    refine ⟨{ (alookup p.1 (fusionMaps vres bres k).2).getD default with
      rrf_score := some p.2 }, (mem_rrf_fusion_iff vres bres k _).2 ⟨p, hp, rfl⟩, ?_⟩
    obtain ⟨e₀, g1, _, g3, g4⟩ := fusion_doc_payload vres bres k p hp
    rw [g4]
    show e₀.text = t
    rw [g3, hpt]
  · intro d hd hdt
    obtain ⟨p, hp, rfl⟩ := (mem_rrf_fusion_iff vres bres k d).1 hd
    obtain ⟨e₀, g1, _, g3, g4⟩ := fusion_doc_payload vres bres k p hp
    have hpt : p.1 = t := by
      rw [← hdt, g4]
      exact g3.symm
    have : e₀ = d₀ := by
      rw [hpt] at g1
      rw [hfind] at g1
      exact (Option.some_inj.1 g1).symm
    rw [g4, this]

/-- Witness for the C2 theorem at a concrete input: a doc whose text is
unique across both lists, at vector rank 1, appears fused with score
`1/(60+1)`, and every fused hit is an input doc plus `rrf_score`. -/
theorem rrf_fusion_partial_presence_witness :
    ({ text := "t", score := 1, chunk_id := some 7,
       rrf_score := some (1 / (60 + ((0 + 1 : ℕ) : ℚ))) } : Doc) ∈
      rrf_fusion [{ text := "t", score := 1, chunk_id := some 7 }] [] 60 ∧
    ∃ d₀, (d₀ ∈ [({ text := "t", score := 1, chunk_id := some 7 } : Doc)] ∨
        d₀ ∈ ([] : List Doc)) ∧
      ({ text := "t", score := 1, chunk_id := some 7,
         rrf_score := some (1 / (60 + ((0 + 1 : ℕ) : ℚ))) } : Doc) =
        { d₀ with rrf_score :=
          ({ text := "t", score := 1, chunk_id := some 7,
             rrf_score := some (1 / (60 + ((0 + 1 : ℕ) : ℚ))) } :
            Doc).rrf_score } := by
  have T := rrf_fusion_partial_presence
    [{ text := "t", score := 1, chunk_id := some 7 }] ([] : List Doc) 60
  have hmem := T.2 "t" [] [] { text := "t", score := 1, chunk_id := some 7 }
    rfl rfl (by simp) (by simp) (by simp)
  exact ⟨hmem, T.1 _ hmem⟩

/-- Witness for the C10 theorem at a concrete input: the same text in both
lists; the fused payload is the vector doc's (`source := some "v"`), the
BM25 doc's metadata payload is discarded. -/
theorem rrf_fusion_payload_from_vector_list_witness :
    "t" ∈ [({ text := "t", score := 1, source := some "v" } : Doc)].map
      Doc.text ∧
    "t" ∈ [({ text := "t", score := 5, rank := some 1, metadata := some [("m", "1")] } : Doc)].map
      Doc.text ∧
    ∃ d₀, [({ text := "t", score := 1, source := some "v" } : Doc)].find?
        (fun d => d.text = "t") = some d₀ ∧
      (∃ d ∈ rrf_fusion [{ text := "t", score := 1, source := some "v" }]
          [{ text := "t", score := 5, rank := some 1, metadata := some [("m", "1")] }] 60,
        d.text = "t") ∧
      ∀ d ∈ rrf_fusion [{ text := "t", score := 1, source := some "v" }]
          [{ text := "t", score := 5, rank := some 1, metadata := some [("m", "1")] }] 60,
        d.text = "t" → d = { d₀ with rrf_score := d.rrf_score } := by
  refine ⟨by decide, by decide, ?_⟩
  exact rrf_fusion_payload_from_vector_list _ _ 60 "t" (by decide) (by decide)

/-- C3 (amended): `HybridSearcher.search` returns the fused list truncated
to `top_k`; the fused list is sorted by `rrf_score` descending and
contains one hit per distinct text of either sub-result.  Ties are broken
by Python's stable sort (first-appearance order: vector-list entries
first), **not** by the smaller combined minimum rank — see the
counterexample. -/
theorem hybrid_search_sorted_truncated
    (vsearch bsearch : String → ℕ → List Doc) (q : String) (top_k : ℕ)
    (rrf_k : ℚ) :
    search vsearch bsearch q top_k rrf_k =
      (rrf_fusion (vsearch q (top_k * 2)) (bsearch q (top_k * 2)) rrf_k).take
        top_k ∧
    (rrf_fusion (vsearch q (top_k * 2)) (bsearch q (top_k * 2))
      rrf_k).Pairwise
        (fun d e => e.rrf_score.getD 0 ≤ d.rrf_score.getD 0) ∧
    (search vsearch bsearch q top_k rrf_k).length ≤ top_k ∧
    ∀ t, (t ∈ (rrf_fusion (vsearch q (top_k * 2)) (bsearch q (top_k * 2))
        rrf_k).map Doc.text ↔
      t ∈ (vsearch q (top_k * 2)).map Doc.text ∨
        t ∈ (bsearch q (top_k * 2)).map Doc.text) := by
  refine ⟨rfl, rrf_fusion_sorted_desc _ _ _, ?_, fun t => mem_rrf_fusion_texts _ _ _ t⟩
  show ((rrf_fusion _ _ _).take top_k).length ≤ top_k
  rw [List.length_take]
  exact min_le_left _ _

/-- C3 counterexample: with `rrf_k = 1`, the texts "t1", "X" and "Y" all
tie at fused score `1/2`, but "X" (combined minimum rank 2: vector ranks 2
and 5) is returned **before** "Y" (combined minimum rank 1: BM25 rank 1):
the tie is broken by first-appearance order, not by the smaller combined
minimum rank as the claim states. -/
theorem hybrid_search_tie_break_counterexample :
    (search
      (fun _ _ => [{ text := "t1", score := 1 }, { text := "X", score := 1 },
        { text := "t3", score := 1 }, { text := "t4", score := 1 },
        { text := "X", score := 2 }])
      (fun _ _ => [{ text := "Y", score := 1, rank := some 1 }]) "q" 3 1).map
        (fun d => (d.text, d.rrf_score)) =
      [("t1", some (1 / 2)), ("X", some (1 / 2)), ("Y", some (1 / 2))] ∧
    minCombinedRank
      [{ text := "t1", score := 1 }, { text := "X", score := 1 },
        { text := "t3", score := 1 }, { text := "t4", score := 1 },
        { text := "X", score := 2 }]
      [{ text := "Y", score := 1, rank := some 1 }] "X" = 2 ∧
    minCombinedRank
      [{ text := "t1", score := 1 }, { text := "X", score := 1 },
        { text := "t3", score := 1 }, { text := "t4", score := 1 },
        { text := "X", score := 2 }]
      [{ text := "Y", score := 1, rank := some 1 }] "Y" = 1 := by
  refine ⟨?_, by decide, by decide⟩
  norm_num +decide [search, rrf_fusion, vecLoop, bm25Loop, bumpAdd, setVal,
    alookup, putIfAbsent, sortDesc, insDesc]

/-- C7 (amended): when the vector sub-search fails (embedding-provider
error), `HybridSearcher.search` does **not** degrade to a sparse-only
result: the exception propagates unchanged and the whole query fails; no
degradation flag of any kind exists in the code. -/
theorem hybrid_search_error_propagates
    (vsearch : String → ℕ → Except String (List Doc))
    (bsearch : String → ℕ → List Doc) (q : String) (top_k : ℕ) (rrf_k : ℚ)
    (e : String) (h : vsearch q (top_k * 2) = .error e) :
    searchE vsearch bsearch q top_k rrf_k = .error e := by
  simp [searchE, h]

/-- Witness for the C7 theorem at a concrete input. -/
theorem hybrid_search_error_propagates_witness :
    (fun (_ : String) (_ : ℕ) =>
        (Except.error "EmbeddingUnavailable" : Except String (List Doc))) "q"
      (5 * 2) = .error "EmbeddingUnavailable" ∧
    searchE
      (fun _ _ => .error "EmbeddingUnavailable")
      (fun _ _ => [{ text := "sparse-hit", score := 3, rank := some 1 }]) "q" 5
      60 = .error "EmbeddingUnavailable" :=
  ⟨rfl, hybrid_search_error_propagates _ _ "q" 5 60 "EmbeddingUnavailable" rfl⟩

/-- C7 counterexample: the sparse index has a hit, yet an
embedding-provider failure makes the whole query fail with the propagated
error instead of returning a non-empty sparse-only result flagged as
degraded. -/
theorem hybrid_search_no_degradation_counterexample :
    searchE
      (fun _ _ => .error "EmbeddingUnavailable")
      (fun _ _ => [{ text := "sparse-hit", score := 3, rank := some 1 }]) "q" 5
      60 = .error "EmbeddingUnavailable" := rfl

end HybridSearcher

/-! ## BM25 search lemmas -/

theorem range_enum (K : ℕ) :
    (List.range K).enum = (List.range K).map (fun i => (i, i)) := by
  apply List.ext_getElem?
  intro n
  rw [List.getElem?_enum, List.getElem?_map]
  by_cases h : n < K
  · rw [List.getElem?_range h]
    rfl
  · rw [List.getElem?_eq_none (by simpa using Nat.le_of_not_lt h)]
    rfl

theorem getD_map_zero (l : List (List String)) (i : ℕ) :
    (l.map (fun _ => (0 : ℚ))).getD i 0 = 0 := by
  rw [List.getD_eq_getD_get?, List.get?_map]
  cases l.get? i <;> simp

namespace BM25Retriever

theorem length_pySlice {α : Type} (l : List α) (n : ℤ) :
    (pySlice l n).length =
      if 0 ≤ n then min n.toNat l.length else ((l.length : ℤ) + n).toNat := by
  unfold pySlice
  split
  · simp [List.length_take]
  · rename_i hn
    rw [List.length_take]
    have hle : ((l.length : ℤ) + n).toNat ≤ l.length := by omega
    omega

theorem search_some_length
    (termScore : List (List String) → String → List String → ℚ)
    (tokenize : String → List String) (st : BM25State) (q : String)
    (snap : List (List String)) (tk : ℤ) (h : st.bm25 = some snap) :
    (search termScore tokenize st q tk).length =
      (if 0 ≤ tk then min tk.toNat snap.length
       else ((snap.length : ℤ) + tk).toNat) := by
  have hlen :
      (sortDesc
        (fun i => ((snap.map (fun dtoks =>
          ((tokenize q).map (fun w => termScore snap w dtoks)).sum)).getD i 0))
        (List.range snap.length)).length = snap.length := by
    rw [(sortDesc_perm _ _).length_eq, List.length_range]
  simp only [search, h, List.length_map, List.enum_length, length_pySlice]
  rw [hlen]

/-- C4 (amended): `BM25Retriever.search` returns an empty sequence when
the index is unbuilt/empty or when `top_k = 0`; but for a **negative**
`top_k`, Python slice semantics return all but the last `|top_k|` scored
documents, which is non-empty as soon as the corpus is larger than
`|top_k|` — contradicting the original `topK <= 0` claim. -/
theorem bm25_search_guards
    (termScore : List (List String) → String → List String → ℚ)
    (tokenize : String → List String) (st : BM25State) (q : String) :
    (st.bm25 = none → ∀ tk : ℤ, search termScore tokenize st q tk = []) ∧
    search termScore tokenize st q 0 = [] ∧
    (∀ snap, st.bm25 = some snap → ∀ tk : ℤ, 0 ≤ tk →
      (search termScore tokenize st q tk).length = min tk.toNat snap.length) ∧
    (∀ snap, st.bm25 = some snap → ∀ tk : ℤ, tk < 0 →
      (search termScore tokenize st q tk).length =
        ((snap.length : ℤ) + tk).toNat) := by
  refine ⟨?_, ?_, ?_, ?_⟩
  · intro h tk
    simp [search, h]
  · cases h : st.bm25 with
    | none => simp [search, h]
    | some snap =>
        have := search_some_length termScore tokenize st q snap 0 h
        simp only [le_refl, if_pos, Int.toNat_zero, Nat.zero_min] at this
        exact List.length_eq_zero.1 (by simpa using this)
  · intro snap h tk htk
    rw [search_some_length termScore tokenize st q snap tk h, if_pos htk]
  · intro snap h tk htk
    rw [search_some_length termScore tokenize st q snap tk h,
      if_neg (by omega)]

/-- Witness for the C4 theorem at concrete inputs: a fresh (empty) state
returns nothing, and on a one-document corpus a negative `top_k` returns
`(1 + (-2)).toNat = 0` results (while two documents with `top_k = -1`
return one — see the counterexample). -/
theorem bm25_search_guards_witness :
    search (fun _ _ _ => (0 : ℚ)) (fun w => [w]) {} "q" 5 = [] ∧
    (search (fun _ _ _ => (0 : ℚ)) (fun w => [w])
        { corpus := ["a"], tokenizedCorpus := [["a"]], metadataList := [[]],
          bm25 := some [["a"]] } "q" (-2)).length =
      ((([["a"]] : List (List String)).length : ℤ) + (-2)).toNat :=
  ⟨(bm25_search_guards (fun _ _ _ => (0 : ℚ)) (fun w => [w]) {} "q").1 rfl 5,
   (bm25_search_guards (fun _ _ _ => (0 : ℚ)) (fun w => [w])
      { corpus := ["a"], tokenizedCorpus := [["a"]], metadataList := [[]],
        bm25 := some [["a"]] } "q").2.2.2 [["a"]] rfl (-2) (by decide)⟩

/-- C4 counterexample: with two indexed documents and `top_k = -1 ≤ 0`,
`search` returns one result (Python `l[:-1]`), not the empty sequence the
claim requires. -/
theorem bm25_search_negative_topk_counterexample :
    (-1 : ℤ) ≤ 0 ∧
    search (fun _ _ _ => (0 : ℚ)) (fun w => [w])
      (add_documents (fun w => [w]) {}
        [{ text := some "a" }, { text := some "b" }]).1 "q" (-1) =
      [{ text := "a", score := 0, metadata := some [], rank := some 1 }] := by
  refine ⟨by decide, ?_⟩
  norm_num +decide [search, add_documents, addLoop, pySlice, sortDesc, insDesc,
    BM25State.bm25, BM25State.corpus, BM25State.metadataList]

/-- C5 (amended): a query that tokenizes to zero terms does **not** return
an empty sequence: every document scores 0, the stable sort keeps the
original order, and the first `min(top_k, corpusSize)` documents are
returned (with score 0 and ranks 1, 2, ...). -/
theorem bm25_search_zero_term_query
    (termScore : List (List String) → String → List String → ℚ)
    (tokenize : String → List String) (st : BM25State) (q : String)
    (snap : List (List String)) (tk : ℤ) (h1 : st.bm25 = some snap)
    (h2 : tokenize q = []) (h3 : 0 ≤ tk) :
    search termScore tokenize st q tk =
      (List.range (min tk.toNat snap.length)).map (fun i =>
        ({ text := st.corpus.getD i "", score := 0,
           metadata := some (st.metadataList.getD i []),
           rank := some (i + 1) } : Doc)) := by
  simp only [search, h1, h2, List.map_nil, List.sum_nil]
  rw [sortDesc_of_const _ _ 0
    (fun a _ => getD_map_zero snap a)]
  unfold pySlice
  rw [if_pos h3, List.length_map, List.take_range, range_enum, List.map_map]
  refine List.map_congr_left ?_
  intro i _
  simp [getD_map_zero]

/-- Witness for the C5 theorem at a concrete input. -/
theorem bm25_search_zero_term_query_witness :
    ({ corpus := ["doc"], tokenizedCorpus := [["doc"]], metadataList := [[]],
        bm25 := some [["doc"]] } : BM25State).bm25 = some [["doc"]] ∧
    (fun (_ : String) => ([] : List String)) "anything" = [] ∧
    (0 : ℤ) ≤ 3 ∧
    search (fun _ _ _ => (0 : ℚ)) (fun _ => [])
        { corpus := ["doc"], tokenizedCorpus := [["doc"]], metadataList := [[]],
          bm25 := some [["doc"]] } "anything" 3 =
      (List.range (min (3 : ℤ).toNat ([["doc"]] : List (List String)).length)).map
        (fun i =>
          ({ text := (["doc"] : List String).getD i "", score := 0,
             metadata := some (([[]] : List (List (String × String))).getD i []),
             rank := some (i + 1) } : Doc)) :=
  ⟨rfl, rfl, by decide,
   bm25_search_zero_term_query (fun _ _ _ => (0 : ℚ)) (fun _ => [])
     { corpus := ["doc"], tokenizedCorpus := [["doc"]], metadataList := [[]],
       bm25 := some [["doc"]] } "anything" [["doc"]] 3 rfl rfl (by decide)⟩

/-- C5 counterexample: on a one-document index, a query tokenizing to zero
terms returns that document (score 0) instead of the empty sequence the
claim requires. -/
theorem bm25_search_zero_term_counterexample :
    search (fun _ _ _ => (0 : ℚ)) (fun _ => [])
      (add_documents (fun w => [w]) {} [{ text := some "doc" }]).1 "any" 3 =
      [{ text := "doc", score := 0, metadata := some [], rank := some 1 }] ∧
    search (fun _ _ _ => (0 : ℚ)) (fun _ => [])
      (add_documents (fun w => [w]) {} [{ text := some "doc" }]).1 "any" 3 ≠
      [] := by
  constructor
  · norm_num +decide [search, add_documents, addLoop, pySlice, sortDesc,
      insDesc, BM25State.bm25, BM25State.corpus, BM25State.metadataList]
  · intro hcontra
    rw [show (add_documents (fun w => [w]) {} [{ text := some "doc" }]).1 =
      { corpus := ["doc"], tokenizedCorpus := [["doc"]], metadataList := [[]],
        bm25 := some [["doc"]] } from rfl] at hcontra
    have := congrArg List.length hcontra
    rw [search_some_length (fun _ _ _ => (0 : ℚ)) (fun _ => []) _ "any"
      [["doc"]] 3 rfl] at this
    simp at this

/-- The append loop of `add_documents` on a batch in which every doc has
text: all three parallel lists are extended in order, `bm25` untouched. -/
theorem addLoop_ok (tokenize : String → List String) (docs : List IngestDoc) :
    ∀ st : BM25State, (∀ d ∈ docs, (d.text).isSome) →
    addLoop tokenize st docs =
      ({ corpus := st.corpus ++ docs.map (fun d => (d.text).getD ""),
         tokenizedCorpus := st.tokenizedCorpus ++
           docs.map (fun d => tokenize ((d.text).getD "")),
         metadataList := st.metadataList ++ docs.map IngestDoc.metadata,
         bm25 := st.bm25 }, none) := by
  induction docs with
  | nil =>
      intro st _
      simp [addLoop]
  | cons d ds ih =>
      intro st h
      obtain ⟨t, ht⟩ := Option.isSome_iff_exists.1 (h d (List.mem_cons_self _ _))
      simp only [addLoop, ht]
      rw [ih _ (fun x hx => h x (List.mem_cons_of_mem d hx))]
      simp [ht]

/-- The append loop raises `KeyError` as soon as a doc lacks text. -/
theorem addLoop_err (tokenize : String → List String) (docs : List IngestDoc) :
    ∀ st : BM25State, (∃ d ∈ docs, d.text = none) →
    (addLoop tokenize st docs).2 = some "KeyError" := by
  induction docs with
  | nil =>
      rintro st ⟨d, hd, _⟩
      simp at hd
  | cons d ds ih =>
      rintro st ⟨e, he, hnone⟩
      cases ht : d.text with
      | none => simp [addLoop, ht]
      | some t =>
          rcases List.mem_cons.1 he with rfl | he2
          · rw [ht] at hnone
            exact absurd hnone (by simp)
          · simp only [addLoop, ht]
            exact ih _ ⟨e, he2, hnone⟩

end BM25Retriever

theorem zip_self_map {α β : Type} (l : List α) (g : α → β) :
    l.zip (l.map g) = l.map (fun a => (a, g a)) := by
  induction l with
  | nil => rfl
  | cons x xs ih => simp [ih]

namespace MilvusClient

theorem pyChunksAux_length_le {α : Type} (bs : ℕ) :
    ∀ (fuel : ℕ) (l : List α) (b : List α),
      b ∈ pyChunksAux fuel bs l → b.length ≤ bs := by
  intro fuel
  induction fuel with
  | zero =>
      intro l b hb
      simp [pyChunksAux] at hb
  | succ n ih =>
      intro l b hb
      cases l with
      | nil => simp [pyChunksAux] at hb
      | cons x xs =>
          simp only [pyChunksAux, List.mem_cons] at hb
          rcases hb with rfl | hb
          · rw [List.length_take]
            exact min_le_left _ _
          · exact ih _ b hb

theorem pyChunksAux_flatten {α : Type} (bs : ℕ) (hbs : 0 < bs) :
    ∀ (fuel : ℕ) (l : List α), l.length ≤ fuel →
      (pyChunksAux fuel bs l).flatten = l := by
  intro fuel
  induction fuel with
  | zero =>
      intro l hl
      rw [List.length_eq_zero.1 (Nat.le_zero.1 hl)]
      rfl
  | succ n ih =>
      intro l hl
      cases l with
      | nil => rfl
      | cons x xs =>
          show (List.take bs (x :: xs) ::
            pyChunksAux n bs (List.drop bs (x :: xs))).flatten = x :: xs
          rw [List.flatten_cons, ih (List.drop bs (x :: xs)) (by
            rw [List.length_drop]
            simp only [List.length_cons] at hl ⊢
            omega), List.take_append_drop]

theorem foldl_append_eq {α β : Type} (g : α → List β) (cs : List α) :
    ∀ acc : List β,
      cs.foldl (fun a b => a ++ g b) acc = acc ++ (cs.map g).flatten := by
  induction cs with
  | nil =>
      intro acc
      simp
  | cons c cs ih =>
      intro acc
      simp only [List.foldl_cons, List.map_cons, List.flatten_cons]
      rw [ih, List.append_assoc]

/-- With an order-preserving provider (the OpenAI embeddings API contract:
one embedding per input, in order), `embed_texts` is the per-text
embedding mapped over the whole list. -/
theorem embed_texts_map (f : String → List ℚ) (texts : List String) (bs : ℕ)
    (hbs : 0 < bs) :
    embed_texts (fun b => b.map f) texts bs = texts.map f := by
  rw [embed_texts, foldl_append_eq, List.nil_append, ← List.map_flatten,
    pyChunks, pyChunksAux_flatten bs hbs texts.length texts le_rfl]

/-- `insert` performs no id check: the stored `chunk_id`s are exactly the
input ones, duplicates included. -/
theorem insert_chunk_ids (f : String → List ℚ) (base : Int)
    (chunks : List Chunk) :
    (insert (fun b => b.map f) base chunks).map Entity.chunk_id =
      chunks.map Chunk.chunk_id := by
  unfold insert
  by_cases h : chunks.isEmpty
  · rw [if_pos h, List.isEmpty_iff.1 h]
    rfl
  · rw [if_neg h]
    dsimp only
    have hz : (List.map (fun x : Chunk => x.text) chunks).map f =
        chunks.map (fun c => f c.text) := by
      rw [List.map_map]
      rfl
    rw [embed_texts_map f _ 64 (by decide), hz,
      zip_self_map chunks (fun c => f c.text), List.enum_map, List.map_map,
      List.map_map]
    conv_rhs => rw [← List.enum_map_snd chunks]
    rw [List.map_map]
    refine List.map_congr_left ?_
    rintro ⟨i, c⟩ _
    rfl

/-- Every entity built by `insert` keeps, of the whole metadata mapping,
only the value of the `source` key. -/
theorem insert_mem_source (f : String → List ℚ) (base : Int)
    (chunks : List Chunk) (e : Entity)
    (he : e ∈ insert (fun b => b.map f) base chunks) :
    ∃ c ∈ chunks, e.text = c.text ∧
      e.source = (alookup "source" c.metadata).getD "" ∧
      e.chunk_id = c.chunk_id := by
  unfold insert at he
  by_cases h : chunks.isEmpty
  · rw [if_pos h] at he
    simp at he
  · rw [if_neg h] at he
    dsimp only at he
    have hz : (List.map (fun x : Chunk => x.text) chunks).map f =
        chunks.map (fun c => f c.text) := by
      rw [List.map_map]
      rfl
    rw [embed_texts_map f _ 64 (by decide), hz,
      zip_self_map chunks (fun c => f c.text), List.enum_map,
      List.map_map] at he
    obtain ⟨p, hp, rfl⟩ := List.mem_map.1 he
    obtain ⟨i, c⟩ := p
    exact ⟨c, List.snd_mem_of_mem_enum hp, rfl, rfl, rfl⟩

/-- C8 (confirmed): `embed_texts` splits the input into slices of at most
`batch_size`, calls the provider per slice, and (with the provider's
one-vector-per-text, order-preserving contract) returns exactly one
vector per input text in input order. -/
theorem embed_texts_batched_ordered (f : String → List ℚ)
    (texts : List String) (bs : ℕ) (hbs : 0 < bs) :
    (∀ b ∈ pyChunks bs texts, b.length ≤ bs) ∧
    embed_texts (fun b => b.map f) texts bs = texts.map f ∧
    (embed_texts (fun b => b.map f) texts bs).length = texts.length ∧
    ∀ i : ℕ, (embed_texts (fun b => b.map f) texts bs)[i]? =
      (texts[i]?).map f := by
  refine ⟨fun b hb => pyChunksAux_length_le bs texts.length texts b hb,
    embed_texts_map f texts bs hbs, ?_, ?_⟩
  · rw [embed_texts_map f texts bs hbs, List.length_map]
  · intro i
    rw [embed_texts_map f texts bs hbs, List.getElem?_map]

/-- Witness for the C8 theorem at a concrete input. -/
theorem embed_texts_batched_ordered_witness :
    (0 : ℕ) < 2 ∧
    (∀ b ∈ pyChunks 2 ["a", "bb", "ccc"], b.length ≤ 2) ∧
    embed_texts (fun b => b.map (fun w => [(w.length : ℚ)])) ["a", "bb", "ccc"]
        2 = ["a", "bb", "ccc"].map (fun w => [(w.length : ℚ)]) :=
  ⟨by decide,
   (embed_texts_batched_ordered (fun w => [(w.length : ℚ)]) ["a", "bb", "ccc"]
      2 (by decide)).1,
   (embed_texts_batched_ordered (fun w => [(w.length : ℚ)]) ["a", "bb", "ccc"]
      2 (by decide)).2.1⟩

end MilvusClient

/-- C6 (amended): ingestion performs no validation at all.  A chunk whose
id collides with an already-ingested chunk of different text is accepted
without any error and both are indexed (the original data stays in place,
followed by the new chunk), in both the sparse and the dense path; there
is no `IndexingError` anywhere — a chunk lacking text raises a plain
`KeyError`. -/
theorem ingestion_no_validation (tokenize : String → List String)
    (st : BM25State) (docs : List IngestDoc) :
    ((∀ d ∈ docs, (d.text).isSome) →
      (BM25Retriever.add_documents tokenize st docs).2 = none ∧
      (BM25Retriever.add_documents tokenize st docs).1.corpus =
        st.corpus ++ docs.map (fun d => (d.text).getD "")) ∧
    ((∃ d ∈ docs, d.text = none) →
      (BM25Retriever.add_documents tokenize st docs).2 = some "KeyError") ∧
    ∀ (f : String → List ℚ) (base : Int) (chunks : List Chunk),
      (MilvusClient.insert (fun b => b.map f) base chunks).map
          Entity.chunk_id = chunks.map Chunk.chunk_id := by
  refine ⟨?_, ?_, fun f base chunks =>
    MilvusClient.insert_chunk_ids f base chunks⟩
  · intro h
    unfold BM25Retriever.add_documents
    split
    · rename_i hemp
      have hd0 : docs = [] := List.isEmpty_iff.1 hemp
      subst hd0
      simp
    · rw [BM25Retriever.addLoop_ok tokenize docs st h]
      exact ⟨rfl, rfl⟩
  · rintro ⟨d, hd, hnone⟩
    unfold BM25Retriever.add_documents
    split
    · rename_i hemp
      have hd0 : docs = [] := List.isEmpty_iff.1 hemp
      subst hd0
      simp at hd
    · have herr := BM25Retriever.addLoop_err tokenize docs st ⟨d, hd, hnone⟩
      cases hL : BM25Retriever.addLoop tokenize st docs with
      | mk st' err =>
          rw [hL] at herr
          have herr2 : err = some "KeyError" := herr
          subst herr2
          rfl

/-- Witness for the C6 theorem at a concrete input: two chunks with the
same `chunk_id` and different texts are both ingested without error. -/
theorem ingestion_no_validation_witness :
    (∀ d ∈ [({ text := some "a", chunk_id := 1 } : IngestDoc),
        { text := some "b", chunk_id := 1 }], (d.text).isSome) ∧
    (BM25Retriever.add_documents (fun w => [w]) {}
      [({ text := some "a", chunk_id := 1 } : IngestDoc),
        { text := some "b", chunk_id := 1 }]).2 = none ∧
    (BM25Retriever.add_documents (fun w => [w]) {}
      [({ text := some "a", chunk_id := 1 } : IngestDoc),
        { text := some "b", chunk_id := 1 }]).1.corpus =
      ({} : BM25State).corpus ++
        [({ text := some "a", chunk_id := 1 } : IngestDoc),
          { text := some "b", chunk_id := 1 }].map
            (fun d => (d.text).getD "") := by
  have T := (ingestion_no_validation (fun w => [w]) {}
    [({ text := some "a", chunk_id := 1 } : IngestDoc),
      { text := some "b", chunk_id := 1 }]).1 (by decide)
  exact ⟨by decide, T.1, T.2⟩

/-- C6 counterexample: ingesting chunk_id 1 with text "a" and then
chunk_id 1 with text "b" succeeds with no error in both paths, and both
versions are indexed and searchable — instead of the second failing with
`IndexingError`. -/
theorem ingestion_collision_accepted_counterexample :
    (BM25Retriever.add_documents (fun w => [w]) {}
      [({ text := some "a", chunk_id := 1 } : IngestDoc),
        { text := some "b", chunk_id := 1 }]).2 = none ∧
    (BM25Retriever.add_documents (fun w => [w]) {}
      [({ text := some "a", chunk_id := 1 } : IngestDoc),
        { text := some "b", chunk_id := 1 }]).1.corpus = ["a", "b"] ∧
    (BM25Retriever.search (fun _ _ _ => (0 : ℚ)) (fun w => [w])
      (BM25Retriever.add_documents (fun w => [w]) {}
        [({ text := some "a", chunk_id := 1 } : IngestDoc),
          { text := some "b", chunk_id := 1 }]).1 "a" 2).map Doc.text =
      ["a", "b"] ∧
    (MilvusClient.insert (fun b => b.map (fun _ => [(0 : ℚ)])) 100
      [({ text := "a", chunk_id := 1 } : Chunk),
        { text := "b", chunk_id := 1 }]).map (fun e => (e.chunk_id, e.text)) =
      [(1, "a"), (1, "b")] := by
  refine ⟨by decide, by decide, ?_, by decide⟩
  norm_num +decide [BM25Retriever.search, BM25Retriever.add_documents,
    BM25Retriever.addLoop, BM25Retriever.pySlice, sortDesc, insDesc]

/-- C9 (amended): the sparse path passes each chunk's metadata mapping
through unchanged from ingestion to search results; the dense path does
**not**: `MilvusClient.insert` keeps only the metadata's `source` value
and `MilvusClient.search` returns hits carrying no metadata mapping at
all. -/
theorem metadata_passthrough
    (termScore : List (List String) → String → List String → ℚ)
    (tokenize : String → List String) (st : BM25State) (q : String)
    (tk : ℤ) :
    (∀ d ∈ BM25Retriever.search termScore tokenize st q tk,
      ∃ i : ℕ, d.text = st.corpus.getD i "" ∧
        d.metadata = some (st.metadataList.getD i [])) ∧
    (∀ docs : List IngestDoc, (∀ x ∈ docs, (x.text).isSome) →
      (BM25Retriever.add_documents tokenize st docs).1.metadataList =
        st.metadataList ++ docs.map IngestDoc.metadata) ∧
    (∀ (f : String → List ℚ) (base : Int) (chunks : List Chunk),
      ∀ e ∈ MilvusClient.insert (fun b => b.map f) base chunks,
        ∃ c ∈ chunks, e.text = c.text ∧
          e.source = (alookup "source" c.metadata).getD "" ∧
          e.chunk_id = c.chunk_id) ∧
    ∀ (embed : String → List ℚ) (retrieve : List ℚ → ℕ → List (Entity × ℚ))
      (q2 : String) (tk2 : ℕ),
      ∀ d ∈ MilvusClient.search embed retrieve q2 tk2,
        d.metadata = none ∧ ∃ h ∈ retrieve (embed q2) tk2,
          d = { text := h.1.text, source := some h.1.source, score := h.2 } := by
  refine ⟨?_, ?_, fun f base chunks e he =>
    MilvusClient.insert_mem_source f base chunks e he, ?_⟩
  · intro d hd
    unfold BM25Retriever.search at hd
    cases hb : st.bm25 with
    | none =>
        rw [hb] at hd
        simp at hd
    | some snap =>
        rw [hb] at hd
        obtain ⟨p, _, rfl⟩ := List.mem_map.1 hd
        exact ⟨p.2, rfl, rfl⟩
  · intro docs h
    unfold BM25Retriever.add_documents
    split
    · rename_i hemp
      have hd0 : docs = [] := List.isEmpty_iff.1 hemp
      subst hd0
      simp
    · rw [BM25Retriever.addLoop_ok tokenize docs st h]
  · intro embed retrieve q2 tk2 d hd
    obtain ⟨h, hh, rfl⟩ := List.mem_map.1 hd
    exact ⟨rfl, h, hh, rfl⟩

/-- Witness for the C9 theorem at concrete inputs for all four parts. -/
theorem metadata_passthrough_witness :
    (∃ i : ℕ,
      ({ text := "x", score := 0, metadata := some [("k", "v")],
         rank := some 1 } : Doc).text = (["x"] : List String).getD i "" ∧
      ({ text := "x", score := 0, metadata := some [("k", "v")],
         rank := some 1 } : Doc).metadata =
        some (([[("k", "v")]] :
          List (List (String × String))).getD i [])) ∧
    (BM25Retriever.add_documents (fun _ => ([] : List String))
      { corpus := ["x"], tokenizedCorpus := [["x"]],
        metadataList := [[("k", "v")]], bm25 := some [["x"]] }
      [({ text := some "a", metadata := [("m", "1")], chunk_id := 3 } :
        IngestDoc)]).1.metadataList =
      [[("k", "v")]] ++
        [({ text := some "a", metadata := [("m", "1")], chunk_id := 3 } :
          IngestDoc)].map IngestDoc.metadata ∧
    (∃ c ∈ [({ text := "t", metadata := [("source", "s")], chunk_id := 7 } :
        Chunk)],
      ({ id := 100, vector := [], text := "t", source := "s",
         chunk_id := 7 } : Entity).text = c.text ∧
      ({ id := 100, vector := [], text := "t", source := "s",
         chunk_id := 7 } : Entity).source =
        (alookup "source" c.metadata).getD "" ∧
      ({ id := 100, vector := [], text := "t", source := "s",
         chunk_id := 7 } : Entity).chunk_id = c.chunk_id) ∧
    ({ text := "t", source := some "s", score := 5 } : Doc).metadata = none := by
  have T := metadata_passthrough (fun _ _ _ => (0 : ℚ))
    (fun _ => ([] : List String))
    { corpus := ["x"], tokenizedCorpus := [["x"]],
      metadataList := [[("k", "v")]], bm25 := some [["x"]] } "x" 3
  refine ⟨T.1 _ (by decide), T.2.1 _ (by decide), ?_, ?_⟩
  · exact T.2.2.1 (fun _ => []) 100
      [{ text := "t", metadata := [("source", "s")], chunk_id := 7 }]
      { id := 100, vector := [], text := "t", source := "s", chunk_id := 7 }
      (by decide)
  · exact (T.2.2.2 (fun _ => [(0 : ℚ)])
      (fun _ _ =>
        [({ id := 100, vector := [], text := "t", source := "s",
            chunk_id := 7 }, 5)]) "q" 3
      { text := "t", source := some "s", score := 5 } (by decide)).1

/-- C9 counterexample: a chunk ingested with metadata
`[("source", "s"), ("page", "3")]` loses its `page` key in the dense path:
the stored entity keeps only `source`, and the dense search result
carries no metadata mapping at all. -/
theorem dense_path_drops_metadata_counterexample :
    MilvusClient.insert (fun b => b.map (fun _ => [(0 : ℚ)])) 100
      [({ text := "txt", metadata := [("source", "s"), ("page", "3")],
          chunk_id := 7 } : Chunk)] =
      [{ id := 100, vector := [0], text := "txt", source := "s",
         chunk_id := 7 }] ∧
    MilvusClient.search (fun _ => [(0 : ℚ)])
      (fun _ _ =>
        [({ id := 100, vector := [0], text := "txt", source := "s",
            chunk_id := 7 }, 5)]) "q" 3 =
      [{ text := "txt", source := some "s", score := 5 }] := by
  exact ⟨by decide, by decide⟩

end FinSight
